import Mathlib

/-!
Shallow embedding of the getopt package (file getopt.go of dmgk/getopt):
a POSIX-style short-option command-line scanner.

Modelling conventions:
* Go byte strings are modelled as lists of characters (`Str`); every input
  appearing in the claims is ASCII, where Go's byte indexing coincides with
  character indexing.
* Go code that can panic (out-of-range indexing) is modelled with `Option`:
  a result of `none` means the corresponding Go call panics; `some` carries
  the ordinary Go return value together with the updated scanner state.
* Pointer-typed results (`*Option`, `*string`) are modelled with `Option`
  values; a `nil` pointer is `none`.
-/

/-- Go byte strings, as ASCII character lists. -/
abbrev Str := List Char

/-- Conversion helper for writing `Str` literals. -/
def str (s : String) : Str := s.data

/-- Embeds `isOptionChar` (getopt.go): ASCII alphanumeric check. -/
def isOptionChar (c : Char) : Bool :=
  (decide (65 ≤ c.toNat) && decide (c.toNat ≤ 90)) ||
  (decide (97 ≤ c.toNat) && decide (c.toNat ≤ 122)) ||
  (decide (48 ≤ c.toNat) && decide (c.toNat ≤ 57))

/-- Embeds Go's `path.Base`: strip trailing slashes, keep the part after the
last remaining slash, with the special cases for `""` and all-slash paths. -/
def pathBase (p : Str) : Str :=
  if p = [] then ['.']
  else
    let q := (p.reverse.dropWhile (fun c => c == '/')).reverse
    let r := (q.reverse.takeWhile (fun c => c != '/')).reverse
    if r = [] then ['/'] else r

/-- Embeds `optArg` (getopt.go): a non-empty string yields a pointer to it,
the empty string yields `nil`. -/
def optArg (s : Str) : Option Str :=
  if s ≠ [] then some s else none

/-- The construction-time error of `NewArgv` ("invalid optstring character"). -/
inductive ConstructionError where
  | invalidOptstringChar (c : Char)
deriving DecidableEq

/-- The run-time errors of `Scanner.Option`: `InvalidOptionError` and
`MissingArgumentError` of getopt.go. -/
inductive GetoptError where
  | invalidOption (c : Char)
  | missingArgument (c : Char)
deriving DecidableEq

/-- Embeds the `Option` result record of getopt.go (called `ParsedOption` in
the specification, to avoid clashing with Lean's `Option`): option character
`Opt` and optional argument pointer `Arg`. -/
structure ParsedOption where
  Opt : Char
  Arg : Option Str
deriving DecidableEq

/-- Embeds the method `Option.HasArg` of getopt.go. -/
def ParsedOption.HasArg (o : ParsedOption) : Bool :=
  o.Arg.isSome

/-- Embeds the `Scanner` struct of getopt.go. -/
structure Scanner where
  argv : List Str
  optstring : Str
  optind : Nat
  arg : Str
  optpos : Nat
  err : Option GetoptError
  progname : Str
deriving DecidableEq

/-- Embeds `strings.IndexByte` as used on the optstring: index of the first
occurrence, `none` when absent (Go returns `-1`). -/
def indexByte? (s : Str) (c : Char) : Option Nat :=
  match s with
  | [] => none
  | d :: rest => if d = c then some 0 else (indexByte? rest c).map (· + 1)

/-- Embeds `NewArgv` (getopt.go): validate the optstring (first offending
character reported), then build the scanner.  Go evaluates
`path.Base(argv[0])` in the struct literal; on an empty `argv` that indexing
panics, modelled by `none`. -/
def NewArgv (optstring : Str) (argv : List Str) :
    Option (Except ConstructionError Scanner) :=
  match optstring.find? (fun c => !(isOptionChar c || c == ':')) with
  | some c => some (Except.error (ConstructionError.invalidOptstringChar c))
  | none =>
    match argv with
    | [] => none
    | a0 :: _ =>
      some (Except.ok
        { argv := argv
          optstring := optstring
          optind := 1
          arg := []
          optpos := 1
          err := none
          progname := pathBase a0 })

/-- The element test of `Scanner.Scan` (getopt.go), stated positively: the
Go code returns `false` when `len(arg) < 2 || arg[0] != '-' ||
!isOptionChar(arg[1])`; this is the negation of that condition. -/
def isOptionElement (a : Str) : Bool :=
  match a with
  | c0 :: c1 :: _ => decide (c0 = '-') && isOptionChar c1
  | _ => false

/-- Embeds the method `Scanner.Scan` (getopt.go).  The current element is
read only after the `optind == len(argv) || err != nil` early return; an
out-of-range `optind` there would be a Go panic (`none`). -/
def Scanner.Scan (s : Scanner) : Option (Bool × Scanner) :=
  if s.optind = s.argv.length ∨ s.err.isSome then
    some (false, s)
  else
    match s.argv[s.optind]? with
    | none => none
    | some a =>
      if a = ['-', '-'] then
        some (false, { s with arg := a, optind := s.optind + 1 })
      else if isOptionElement a then
        some (true, { s with arg := a })
      else
        some (false, { s with arg := a })

/-- The Go boolean `hasArg` of `Scanner.Option`:
`idx < len(optstring)-1 && optstring[idx+1] == ':'`. -/
def hasArgAt (os : Str) (idx : Nat) : Bool :=
  decide (idx < os.length - 1) && (os[idx + 1]? == some ':')

/-- The Go boolean `optionalArg` of `Scanner.Option`:
`optstring[0] == ':' || idx < len(optstring)-2 && optstring[idx+2] == ':'`.
(When this is evaluated the optstring is non-empty, since the option
character was found in it, so `optstring[0]` cannot panic.) -/
def optionalAt (os : Str) (idx : Nat) : Bool :=
  (os[0]? == some ':') || (decide (idx < os.length - 2) && (os[idx + 2]? == some ':'))

/-- Result type of a decode step: `none` is a Go panic, otherwise the
returned `(*Option, error)` pair together with the updated scanner. -/
abbrev DecodeStep := Option (Except GetoptError ParsedOption × Scanner)

/-- Embeds the method `Scanner.Option` (getopt.go): decode the option
character at the cursor.  `s.arg[s.optpos]` out of range is a Go panic
(`none`); the inner `argv[optind+1]` access is guarded by the surrounding
`optind+1 < len(argv)` test and cannot panic. -/
def Scanner.Option (s : Scanner) : DecodeStep :=
  match s.arg[s.optpos]? with
  | none => none
  | some optopt =>
    match indexByte? s.optstring optopt with
    | none =>
      some (Except.error (GetoptError.invalidOption optopt),
        { s with err := some (GetoptError.invalidOption optopt) })
    | some idx =>
      if hasArgAt s.optstring idx then
        if s.arg.length > s.optpos + 1 then
          some (Except.ok ⟨optopt, optArg (s.arg.drop (s.optpos + 1))⟩,
            { s with optind := s.optind + 1, optpos := 1 })
        else if s.optind + 1 < s.argv.length then
          match s.argv[s.optind + 1]? with
          | none => none
          | some next =>
            if !optionalAt s.optstring idx then
              some (Except.ok ⟨optopt, optArg next⟩,
                { s with optind := s.optind + 2, optpos := 1 })
            else if next ≠ [] ∧ next[0]? ≠ some '-' then
              some (Except.ok ⟨optopt, optArg next⟩,
                { s with optind := s.optind + 2, optpos := 1 })
            else
              some (Except.ok ⟨optopt, none⟩,
                { s with optind := s.optind + 1, optpos := 1 })
        else
          if optionalAt s.optstring idx then
            some (Except.ok ⟨optopt, none⟩,
              { s with optind := s.optind + 1, optpos := 1 })
          else
            some (Except.error (GetoptError.missingArgument optopt),
              { s with err := some (GetoptError.missingArgument optopt) })
      else
        if s.arg.length = s.optpos + 1 then
          some (Except.ok ⟨optopt, none⟩,
            { s with optind := s.optind + 1, optpos := 1 })
        else
          some (Except.ok ⟨optopt, none⟩, { s with optpos := s.optpos + 1 })

/-- Embeds the method `Scanner.Args` (getopt.go): the remaining elements, or
`nil` (the empty list) when nothing remains. -/
def Scanner.Args (s : Scanner) : List Str :=
  if s.optind < s.argv.length then s.argv.drop s.optind else []

/-- Embeds the method `Scanner.ProgramName` (getopt.go). -/
def Scanner.ProgramName (s : Scanner) : Str :=
  s.progname

/-- Iterated `Scan`: `scanN s n` is the result of the `(n+1)`-st `Scan` call
starting from `s`, provided none of them panics. -/
def scanN (s : Scanner) : Nat → Option (Bool × Scanner)
  | 0 => s.Scan
  | n + 1 =>
    match s.Scan with
    | some (_, s') => scanN s' n
    | none => none

/-- Projects a successful construction result to the scanner. -/
def okScanner : Except ConstructionError Scanner → Option Scanner
  | Except.ok s => some s
  | Except.error _ => none

/-- The scanner state after one `Scan` call (ignoring the boolean). -/
def scanState (s : Scanner) : Option Scanner :=
  s.Scan.map Prod.snd

/-- The scanner state after one `Option` call (ignoring the result). -/
def optionState (s : Scanner) : Option Scanner :=
  s.Option.map Prod.snd

/-- The cursor invariant of the scanner: the element index stays within
`[1, len argv]`, the character offset is at least 1, and a character offset
beyond 1 points inside the current element, which is the element stored in
`arg`. -/
def ScannerInv (s : Scanner) : Prop :=
  1 ≤ s.optind ∧ s.optind ≤ s.argv.length ∧ 1 ≤ s.optpos ∧
    (1 < s.optpos →
      s.optind < s.argv.length ∧ s.argv[s.optind]? = some s.arg ∧
        s.optpos < s.arg.length)

/-- Scanner states reachable from construction by the intended step
protocol: any number of `Scan` calls, and `Option` calls made only
immediately after a `Scan` call that returned `true` (the usage documented
for the package and exercised by its tests: `for s.Scan() { s.Option() }`).
-/
inductive ProtoReach (os : Str) (argv : List Str) : Scanner → Prop where
  | init (s : Scanner) (h : NewArgv os argv = some (Except.ok s)) :
      ProtoReach os argv s
  | scan (s : Scanner) (b : Bool) (s' : Scanner) (hr : ProtoReach os argv s)
      (h : s.Scan = some (b, s')) : ProtoReach os argv s'
  | opt (s s1 : Scanner) (r : Except GetoptError ParsedOption) (s' : Scanner)
      (hr : ProtoReach os argv s) (h1 : s.Scan = some (true, s1))
      (h2 : s1.Option = some (r, s')) : ProtoReach os argv s'

/-- Decidable equality for `Except`, so that concrete decode results can be
checked by `decide`. -/
instance {ε α : Type} [DecidableEq ε] [DecidableEq α] : DecidableEq (Except ε α) :=
  fun x y =>
    match x, y with
    | Except.ok a, Except.ok b =>
      if h : a = b then Decidable.isTrue (by rw [h])
      else Decidable.isFalse (by intro hc; cases hc; exact h rfl)
    | Except.error a, Except.error b =>
      if h : a = b then Decidable.isTrue (by rw [h])
      else Decidable.isFalse (by intro hc; cases hc; exact h rfl)
    | Except.ok _, Except.error _ => Decidable.isFalse (by intro hc; cases hc)
    | Except.error _, Except.ok _ => Decidable.isFalse (by intro hc; cases hc)

example : str "ab" = ['a', 'b'] := by decide
example : isOptionChar 'a' = true ∧ isOptionChar '-' = false := by decide
example : pathBase (str "/usr/bin/getopt") = str "getopt" := by decide
example : indexByte? (str "aa:") 'a' = some 0 := by decide

/-! ### Helper lemmas -/

theorem optArg_ne_some_nil (x : Str) : optArg x ≠ some [] := by
  unfold optArg
  split
  · rename_i hx
    intro h
    exact hx (Option.some.inj h)
  · intro h
    cases h

theorem optArg_of_ne_nil (x : Str) (hx : x ≠ []) : optArg x = some x := by
  unfold optArg
  exact if_pos hx

theorem scanN_fixpoint (t : Scanner) (h : t.Scan = some (false, t)) :
    ∀ n, scanN t n = some (false, t) := by
  intro n
  induction n with
  | zero => exact h
  | succ n ih =>
    unfold scanN
    rw [h]
    exact ih

theorem scan_cases (s : Scanner) (b : Bool) (s' : Scanner)
    (h : s.Scan = some (b, s')) :
    (b = false ∧ s' = s ∧ (s.optind = s.argv.length ∨ s.err.isSome = true)) ∨
    (¬(s.optind = s.argv.length ∨ s.err.isSome = true) ∧
      ∃ a, s.argv[s.optind]? = some a ∧
        ((b = false ∧ a = ['-', '-'] ∧
            s' = { s with arg := a, optind := s.optind + 1 }) ∨
         (b = true ∧ a ≠ ['-', '-'] ∧ isOptionElement a = true ∧
            s' = { s with arg := a }) ∨
         (b = false ∧ a ≠ ['-', '-'] ∧ isOptionElement a = false ∧
            s' = { s with arg := a }))) := by
  unfold Scanner.Scan at h
  split at h
  · rename_i hcond
    injection h with h
    injection h with hb hs
    exact Or.inl ⟨hb.symm, hs.symm, hcond⟩
  · rename_i hcond
    split at h
    · exact absurd h (by simp)
    · rename_i a ha
      split at h
      · rename_i hdd
        injection h with h
        injection h with hb hs
        exact Or.inr ⟨hcond, a, ha, Or.inl ⟨hb.symm, hdd, hs.symm⟩⟩
      · rename_i hdd
        split at h
        · rename_i hoe
          injection h with h
          injection h with hb hs
          exact Or.inr ⟨hcond, a, ha, Or.inr (Or.inl ⟨hb.symm, hdd, hoe, hs.symm⟩)⟩
        · rename_i hoe
          injection h with h
          injection h with hb hs
          exact Or.inr ⟨hcond, a, ha,
            Or.inr (Or.inr ⟨hb.symm, hdd, Bool.not_eq_true _ ▸ (by
              revert hoe
              cases isOptionElement a <;> simp), hs.symm⟩)⟩

theorem option_cases (s : Scanner) (res : Except GetoptError ParsedOption)
    (s' : Scanner) (h : s.Option = some (res, s')) :
    ∃ c, s.arg[s.optpos]? = some c ∧
      ((indexByte? s.optstring c = none ∧
          res = Except.error (GetoptError.invalidOption c) ∧
          s' = { s with err := some (GetoptError.invalidOption c) }) ∨
       (∃ idx, indexByte? s.optstring c = some idx ∧
         ((hasArgAt s.optstring idx = true ∧ s.optpos + 1 < s.arg.length ∧
             res = Except.ok ⟨c, optArg (s.arg.drop (s.optpos + 1))⟩ ∧
             s' = { s with optind := s.optind + 1, optpos := 1 }) ∨
          (hasArgAt s.optstring idx = true ∧ ¬s.optpos + 1 < s.arg.length ∧
             s.optind + 1 < s.argv.length ∧
             (∃ next, s.argv[s.optind + 1]? = some next ∧
               ((optionalAt s.optstring idx = false ∧
                   res = Except.ok ⟨c, optArg next⟩ ∧
                   s' = { s with optind := s.optind + 2, optpos := 1 }) ∨
                (optionalAt s.optstring idx = true ∧
                   (next ≠ [] ∧ next[0]? ≠ some '-') ∧
                   res = Except.ok ⟨c, optArg next⟩ ∧
                   s' = { s with optind := s.optind + 2, optpos := 1 }) ∨
                (optionalAt s.optstring idx = true ∧
                   ¬(next ≠ [] ∧ next[0]? ≠ some '-') ∧
                   res = Except.ok ⟨c, none⟩ ∧
                   s' = { s with optind := s.optind + 1, optpos := 1 })))) ∨
          (hasArgAt s.optstring idx = true ∧ ¬s.optpos + 1 < s.arg.length ∧
             ¬s.optind + 1 < s.argv.length ∧ optionalAt s.optstring idx = true ∧
             res = Except.ok ⟨c, none⟩ ∧
             s' = { s with optind := s.optind + 1, optpos := 1 }) ∨
          (hasArgAt s.optstring idx = true ∧ ¬s.optpos + 1 < s.arg.length ∧
             ¬s.optind + 1 < s.argv.length ∧ optionalAt s.optstring idx = false ∧
             res = Except.error (GetoptError.missingArgument c) ∧
             s' = { s with err := some (GetoptError.missingArgument c) }) ∨
          (hasArgAt s.optstring idx = false ∧ s.arg.length = s.optpos + 1 ∧
             res = Except.ok ⟨c, none⟩ ∧
             s' = { s with optind := s.optind + 1, optpos := 1 }) ∨
          (hasArgAt s.optstring idx = false ∧ s.arg.length ≠ s.optpos + 1 ∧
             res = Except.ok ⟨c, none⟩ ∧
             s' = { s with optpos := s.optpos + 1 })))) := by
  unfold Scanner.Option at h
  split at h
  · exact absurd h (by simp)
  · rename_i c hc
    refine ⟨c, hc, ?_⟩
    split at h
    · rename_i hidx
      injection h with h
      injection h with h1 h2
      exact Or.inl ⟨hidx, h1.symm, h2.symm⟩
    · rename_i idx hidx
      refine Or.inr ⟨idx, hidx, ?_⟩
      split at h
      · rename_i hHA
        split at h
        · rename_i hgt
          injection h with h
          injection h with h1 h2
          exact Or.inl ⟨hHA, hgt, h1.symm, h2.symm⟩
        · rename_i hgt
          split at h
          · rename_i hlt
            split at h
            · exact absurd h (by simp)
            · rename_i next hnext
              refine Or.inr (Or.inl ⟨hHA, hgt, hlt, next, hnext, ?_⟩)
              split at h
              · rename_i hOA
                injection h with h
                injection h with h1 h2
                refine Or.inl ⟨?_, h1.symm, h2.symm⟩
                revert hOA
                cases optionalAt s.optstring idx <;> simp
              · rename_i hOA
                rw [Bool.not_eq_true', Bool.not_eq_false] at hOA
                split at h
                · rename_i hcond
                  injection h with h
                  injection h with h1 h2
                  exact Or.inr (Or.inl ⟨hOA, hcond, h1.symm, h2.symm⟩)
                · rename_i hcond
                  injection h with h
                  injection h with h1 h2
                  exact Or.inr (Or.inr ⟨hOA, hcond, h1.symm, h2.symm⟩)
          · rename_i hlt
            split at h
            · rename_i hOA
              injection h with h
              injection h with h1 h2
              exact Or.inr (Or.inr (Or.inl ⟨hHA, hgt, hlt, hOA, h1.symm, h2.symm⟩))
            · rename_i hOA
              injection h with h
              injection h with h1 h2
              refine Or.inr (Or.inr (Or.inr (Or.inl
                ⟨hHA, hgt, hlt, ?_, h1.symm, h2.symm⟩)))
              revert hOA
              cases optionalAt s.optstring idx <;> simp
      · rename_i hHA
        have hHA' : hasArgAt s.optstring idx = false := by
          revert hHA
          cases hasArgAt s.optstring idx <;> simp
        split at h
        · rename_i heq
          injection h with h
          injection h with h1 h2
          exact Or.inr (Or.inr (Or.inr (Or.inr (Or.inl
            ⟨hHA', heq, h1.symm, h2.symm⟩))))
        · rename_i heq
          injection h with h
          injection h with h1 h2
          exact Or.inr (Or.inr (Or.inr (Or.inr (Or.inr
            ⟨hHA', heq, h1.symm, h2.symm⟩))))

theorem isOptionElement_length (a : Str) (h : isOptionElement a = true) :
    2 ≤ a.length := by
  unfold isOptionElement at h
  split at h
  · rename_i c0 c1 rest
    simp
  · exact absurd h (by simp)

theorem scannerInv_mk (argv : List Str) (os : Str) (oi : Nat) (a : Str)
    (op : Nat) (e : Option GetoptError) (pn : Str) :
    ScannerInv (Scanner.mk argv os oi a op e pn) ↔
      (1 ≤ oi ∧ oi ≤ argv.length ∧ 1 ≤ op ∧
        (1 < op → oi < argv.length ∧ argv[oi]? = some a ∧ op < a.length)) :=
  Iff.rfl

theorem inv_init (os : Str) (argv : List Str) (s : Scanner)
    (h : NewArgv os argv = some (Except.ok s)) :
    ScannerInv s ∧ s.argv = argv ∧ s.optstring = os := by
  unfold NewArgv at h
  split at h
  · injection h with h
    exact Except.noConfusion h
  · split at h
    · exact absurd h (by simp)
    · rename_i a0 rest
      injection h with h
      injection h with h
      subst h
      refine ⟨?_, rfl, rfl⟩
      rw [scannerInv_mk]
      refine ⟨Nat.le_refl 1, ?_, Nat.le_refl 1, ?_⟩
      · simp only [List.length_cons]
        omega
      · intro hlt
        exact absurd hlt (by omega)

theorem scan_fields (s : Scanner) (b : Bool) (s' : Scanner)
    (h : s.Scan = some (b, s')) :
    s'.argv = s.argv ∧ s'.optstring = s.optstring ∧ s'.err = s.err ∧
      s'.optpos = s.optpos := by
  rcases scan_cases s b s' h with ⟨_, rfl, _⟩ | ⟨_, a, _, hbr⟩
  · exact ⟨rfl, rfl, rfl, rfl⟩
  · rcases hbr with ⟨_, _, rfl⟩ | ⟨_, _, _, rfl⟩ | ⟨_, _, _, rfl⟩ <;>
      exact ⟨rfl, rfl, rfl, rfl⟩

theorem inv_scan (s : Scanner) (b : Bool) (s' : Scanner) (hInv : ScannerInv s)
    (h : s.Scan = some (b, s')) : ScannerInv s' := by
  obtain ⟨h1, h2, h3, h4⟩ := hInv
  rcases scan_cases s b s' h with ⟨-, rfl, -⟩ | ⟨hc, a, ha, hbr⟩
  · exact ⟨h1, h2, h3, h4⟩
  · obtain ⟨hlt, -⟩ := List.getElem?_eq_some.mp ha
    rcases hbr with ⟨hb, hdd, rfl⟩ | ⟨hb, hne, hoe, rfl⟩ | ⟨hb, hne, hoe, rfl⟩
    · have hp1 : s.optpos = 1 := by
        by_contra hne1
        have hgt : 1 < s.optpos := by omega
        obtain ⟨-, harg, hplen⟩ := h4 hgt
        rw [ha] at harg
        have haeq : a = s.arg := Option.some.inj harg
        rw [← haeq, hdd] at hplen
        simp at hplen
        omega
      rw [scannerInv_mk]
      exact ⟨by omega, by omega, by omega,
        fun hgt => absurd hgt (by omega)⟩
    · rw [scannerInv_mk]
      refine ⟨h1, h2, h3, ?_⟩
      intro hgt
      obtain ⟨hlt', harg, hplen⟩ := h4 hgt
      rw [ha] at harg
      have haeq : a = s.arg := Option.some.inj harg
      subst haeq
      exact ⟨hlt', ha, hplen⟩
    · rw [scannerInv_mk]
      refine ⟨h1, h2, h3, ?_⟩
      intro hgt
      obtain ⟨hlt', harg, hplen⟩ := h4 hgt
      rw [ha] at harg
      have haeq : a = s.arg := Option.some.inj harg
      subst haeq
      exact ⟨hlt', ha, hplen⟩

theorem scan_true_facts (s s1 : Scanner) (h : s.Scan = some (true, s1)) :
    s1.argv = s.argv ∧ s1.optstring = s.optstring ∧ s1.optind = s.optind ∧
      s1.optpos = s.optpos ∧ s1.err = s.err ∧
      s1.argv[s1.optind]? = some s1.arg ∧ isOptionElement s1.arg = true := by
  rcases scan_cases s true s1 h with ⟨hb, -, -⟩ | ⟨-, a, ha, hbr⟩
  · exact absurd hb (by simp)
  · rcases hbr with ⟨hb, -, -⟩ | ⟨-, -, hoe, rfl⟩ | ⟨hb, -, -, -⟩
    · exact absurd hb (by simp)
    · exact ⟨rfl, rfl, rfl, rfl, rfl, ha, hoe⟩
    · exact absurd hb (by simp)

theorem option_fields (s : Scanner) (res : Except GetoptError ParsedOption)
    (s' : Scanner) (h : s.Option = some (res, s')) :
    s'.argv = s.argv ∧ s'.optstring = s.optstring ∧ s'.arg = s.arg := by
  obtain ⟨c, hc, hbr⟩ := option_cases s res s' h
  rcases hbr with ⟨-, -, rfl⟩ | ⟨idx, -, hbr⟩
  · exact ⟨rfl, rfl, rfl⟩
  · rcases hbr with ⟨-, -, -, rfl⟩ | ⟨-, -, -, next, -, hbr2⟩ | ⟨-, -, -, -, -, rfl⟩ |
      ⟨-, -, -, -, -, rfl⟩ | ⟨-, -, -, rfl⟩ | ⟨-, -, -, rfl⟩
    · exact ⟨rfl, rfl, rfl⟩
    · rcases hbr2 with ⟨-, -, rfl⟩ | ⟨-, -, -, rfl⟩ | ⟨-, -, -, rfl⟩ <;>
        exact ⟨rfl, rfl, rfl⟩
    · exact ⟨rfl, rfl, rfl⟩
    · exact ⟨rfl, rfl, rfl⟩
    · exact ⟨rfl, rfl, rfl⟩
    · exact ⟨rfl, rfl, rfl⟩

theorem inv_option (s : Scanner) (res : Except GetoptError ParsedOption)
    (s' : Scanner) (hInv : ScannerInv s)
    (harg : s.argv[s.optind]? = some s.arg)
    (h : s.Option = some (res, s')) : ScannerInv s' := by
  obtain ⟨hi1, hi2, hi3, hi4⟩ := hInv
  obtain ⟨hoptind_lt, -⟩ := List.getElem?_eq_some.mp harg
  obtain ⟨c, hc, hbr⟩ := option_cases s res s' h
  obtain ⟨hpos_lt, -⟩ := List.getElem?_eq_some.mp hc
  rcases hbr with ⟨-, -, rfl⟩ | ⟨idx, -, hbr⟩
  · exact ⟨hi1, hi2, hi3, hi4⟩
  · rcases hbr with ⟨-, -, -, rfl⟩ | ⟨-, -, hlt, next, -, hbr2⟩ | ⟨-, -, -, -, -, rfl⟩ |
      ⟨-, -, -, -, -, rfl⟩ | ⟨-, -, -, rfl⟩ | ⟨-, hne, -, rfl⟩
    · rw [scannerInv_mk]
      exact ⟨by omega, by omega, by omega, fun hgt => absurd hgt (by omega)⟩
    · rcases hbr2 with ⟨-, -, rfl⟩ | ⟨-, -, -, rfl⟩ | ⟨-, -, -, rfl⟩ <;>
        rw [scannerInv_mk] <;>
        exact ⟨by omega, by omega, by omega, fun hgt => absurd hgt (by omega)⟩
    · rw [scannerInv_mk]
      exact ⟨by omega, by omega, by omega, fun hgt => absurd hgt (by omega)⟩
    · exact ⟨hi1, hi2, hi3, hi4⟩
    · rw [scannerInv_mk]
      exact ⟨by omega, by omega, by omega, fun hgt => absurd hgt (by omega)⟩
    · rw [scannerInv_mk]
      refine ⟨hi1, hi2, by omega, ?_⟩
      intro hgt
      exact ⟨hoptind_lt, harg, by omega⟩

theorem reach_facts (os : Str) (argv : List Str) (s : Scanner)
    (h : ProtoReach os argv s) :
    ScannerInv s ∧ s.argv = argv ∧ s.optstring = os := by
  induction h with
  | init s h => exact inv_init os argv s h
  | scan s b s' hr h ih =>
    obtain ⟨hInv, hargv, hos⟩ := ih
    obtain ⟨f1, f2, -, -⟩ := scan_fields s b s' h
    exact ⟨inv_scan s b s' hInv h, by rw [f1, hargv], by rw [f2, hos]⟩
  | opt s s1 r s' hr h1 h2 ih =>
    obtain ⟨hInv, hargv, hos⟩ := ih
    have hInv1 := inv_scan s true s1 hInv h1
    obtain ⟨g1, g2, -, -, -, garg, -⟩ := scan_true_facts s s1 h1
    have hInv' := inv_option s1 r s' hInv1 garg h2
    obtain ⟨f1, f2, -⟩ := option_fields s1 r s' h2
    exact ⟨hInv', by rw [f1, g1, hargv], by rw [f2, g2, hos]⟩

theorem scan_defined (s : Scanner) (hInv : ScannerInv s) :
    ∃ r, s.Scan = some r := by
  unfold Scanner.Scan
  split
  · exact ⟨_, rfl⟩
  · rename_i hcond
    have hne : s.optind ≠ s.argv.length := fun he => hcond (Or.inl he)
    have hlt : s.optind < s.argv.length := by
      obtain ⟨-, h2, -, -⟩ := hInv
      omega
    rw [List.getElem?_eq_getElem hlt]
    repeat' split
    all_goals first
      | exact ⟨_, rfl⟩
      | simp_all

theorem option_defined (s1 : Scanner) (hInv : ScannerInv s1)
    (hoe : isOptionElement s1.arg = true) :
    ∃ r, s1.Option = some r := by
  have hlen2 : 2 ≤ s1.arg.length := isOptionElement_length s1.arg hoe
  have hpos : s1.optpos < s1.arg.length := by
    obtain ⟨-, -, h3, h4⟩ := hInv
    rcases Nat.lt_or_ge 1 s1.optpos with hgt | hle
    · exact (h4 hgt).2.2
    · omega
  rcases Nat.lt_or_ge (s1.optind + 1) s1.argv.length with hlt2 | hge2
  · unfold Scanner.Option
    rw [List.getElem?_eq_getElem hpos, List.getElem?_eq_getElem hlt2]
    repeat' split
    all_goals first
      | exact ⟨_, rfl⟩
      | simp_all
  · unfold Scanner.Option
    rw [List.getElem?_eq_getElem hpos, List.getElem?_eq_none hge2]
    repeat' split
    all_goals first
      | exact ⟨_, rfl⟩
      | (simp_all <;> omega)

theorem scan_err_fixpoint (t : Scanner) (ht : t.err.isSome = true) :
    t.Scan = some (false, t) := by
  unfold Scanner.Scan
  rw [if_pos (Or.inr ht)]

theorem option_error_replay (s : Scanner) (e : GetoptError) (s' : Scanner)
    (h : s.Option = some (Except.error e, s')) :
    s' = { s with err := some e } ∧ s'.Option = some (Except.error e, s') := by
  obtain ⟨c, hc, hbr⟩ := option_cases s (Except.error e) s' h
  rcases hbr with ⟨hidx, hres, rfl⟩ | ⟨idx, hidx, hbr⟩
  · have he : e = GetoptError.invalidOption c := by
      injection hres
    subst he
    refine ⟨rfl, ?_⟩
    unfold Scanner.Option
    dsimp only
    simp only [hc, hidx]
  · rcases hbr with ⟨-, -, hres, -⟩ | ⟨-, -, -, next, -, hbr2⟩ |
      ⟨-, -, -, -, hres, -⟩ | ⟨hHA, hgt, hlt, hOA, hres, rfl⟩ |
      ⟨-, -, hres, -⟩ | ⟨-, -, hres, -⟩
    · exact absurd hres (by simp)
    · rcases hbr2 with ⟨-, hres, -⟩ | ⟨-, -, hres, -⟩ | ⟨-, -, hres, -⟩ <;>
        exact absurd hres (by simp)
    · exact absurd hres (by simp)
    · have he : e = GetoptError.missingArgument c := by
        injection hres
      subst he
      refine ⟨rfl, ?_⟩
      unfold Scanner.Option
      dsimp only
      simp [hc, hidx, hHA, hOA, hgt, hlt]
    · exact absurd hres (by simp)
    · exact absurd hres (by simp)

/-- Claim C1 (amended): once the Scanner has Failed (a decode error was
recorded), or Scan returned false because the current element is not a `-`
followed by an alphanumeric character, or because the element index reached
the end of the argument vector, every subsequent Scan call returns false
with the state unchanged, and after a decode error every subsequent decode
returns the same error, so no further option is produced.  The `--`
terminator case of the original claim is excluded: consuming `--` merely
advances the element index, and a further Scan call resumes scanning at the
next element (see the counterexample). -/
theorem claim1_sticky_after_done_or_failed (s : Scanner) :
    ((s.err.isSome = true ∨ s.optind = s.argv.length ∨
        (∃ a, s.argv[s.optind]? = some a ∧ a ≠ ['-', '-'] ∧
          isOptionElement a = false)) →
      ∃ s', s.Scan = some (false, s') ∧ s'.err = s.err ∧
        s'.optind = s.optind ∧ s'.argv = s.argv ∧
        ∀ n, scanN s' n = some (false, s')) ∧
    (∀ e s', s.Option = some (Except.error e, s') →
      s'.err = some e ∧ s'.optind = s.optind ∧ s'.optpos = s.optpos ∧
      s'.Option = some (Except.error e, s') ∧
      ∀ n, scanN s' n = some (false, s')) := by
  constructor
  · intro h
    by_cases h0 : s.optind = s.argv.length ∨ s.err.isSome = true
    · have hs : s.Scan = some (false, s) := by
        unfold Scanner.Scan
        rw [if_pos h0]
      exact ⟨s, hs, rfl, rfl, rfl, scanN_fixpoint s hs⟩
    · rcases h with herr | hlen | ⟨a, ha, hdd, hoe⟩
      · exact absurd (Or.inr herr) h0
      · exact absurd (Or.inl hlen) h0
      · have hs : s.Scan = some (false, { s with arg := a }) := by
          unfold Scanner.Scan
          rw [if_neg h0, ha]
          simp [hdd, hoe]
        have hs2 : ({ s with arg := a } : Scanner).Scan =
            some (false, { s with arg := a }) := by
          unfold Scanner.Scan
          dsimp only
          rw [if_neg h0, ha]
          simp [hdd, hoe]
        exact ⟨{ s with arg := a }, hs, rfl, rfl, rfl, scanN_fixpoint _ hs2⟩
  · intro e s' h
    obtain ⟨hst, hrep⟩ := option_error_replay s e s' h
    subst hst
    have hfix := scan_err_fixpoint { s with err := some e } rfl
    exact ⟨rfl, rfl, rfl, hrep, scanN_fixpoint _ hfix⟩

/-- Counterexample to claim C1 as stated: with optstring `a` and argument
vector `["p", "--", "-a"]`, the first Scan consumes the terminator `--` and
returns false, but the very next Scan call returns true and the option `a`
is then decoded — the Done state reached through `--` is not sticky. -/
theorem claim1_counterexample :
    Scanner.Scan
        { argv := [str "p", str "--", str "-a"], optstring := str "a",
          optind := 1, arg := [], optpos := 1, err := none,
          progname := str "p" } =
      some (false,
        { argv := [str "p", str "--", str "-a"], optstring := str "a",
          optind := 2, arg := str "--", optpos := 1, err := none,
          progname := str "p" }) ∧
    Scanner.Scan
        { argv := [str "p", str "--", str "-a"], optstring := str "a",
          optind := 2, arg := str "--", optpos := 1, err := none,
          progname := str "p" } =
      some (true,
        { argv := [str "p", str "--", str "-a"], optstring := str "a",
          optind := 2, arg := str "-a", optpos := 1, err := none,
          progname := str "p" }) ∧
    Scanner.Option
        { argv := [str "p", str "--", str "-a"], optstring := str "a",
          optind := 2, arg := str "-a", optpos := 1, err := none,
          progname := str "p" } =
      some (Except.ok ⟨'a', none⟩,
        { argv := [str "p", str "--", str "-a"], optstring := str "a",
          optind := 3, arg := str "-a", optpos := 1, err := none,
          progname := str "p" }) ∧
    NewArgv (str "a") [str "p", str "--", str "-a"] =
      some (Except.ok
        { argv := [str "p", str "--", str "-a"], optstring := str "a",
          optind := 1, arg := [], optpos := 1, err := none,
          progname := str "p" }) := by
  decide

/-- Witness for claim C1: the sticky behaviour at a concrete failed state. -/
theorem claim1_witness :
    ∃ s', Scanner.Scan
        { argv := [str "p"], optstring := str "a", optind := 1,
          arg := str "-z", optpos := 1,
          err := some (GetoptError.invalidOption 'z'),
          progname := str "p" } = some (false, s') ∧
      s'.err = some (GetoptError.invalidOption 'z') ∧
      ∀ n, scanN s' n = some (false, s') := by
  obtain ⟨s', h1, h2, h3, h4, h5⟩ :=
    (claim1_sticky_after_done_or_failed
      ⟨[str "p"], str "a", 1, str "-z", 1,
        some (GetoptError.invalidOption 'z'), str "p"⟩).1 (Or.inl (by decide))
  exact ⟨s', h1, by rw [h2], h5⟩

/-- Claim C2 (amended): for every grammar in which the option character c has
effective policy Required — at c's first occurrence idx in the optstring, c
is followed by exactly one `:` AND the optstring does not begin with `:` —
when decode reads c as the last character of its element and a further
element exists, that entire next element is consumed as c's argument
unconditionally (even if it begins with `-`), the element index advances by
2 and the character offset resets to 1.  The original claim omitted the
leading-`:` restriction; with a leading `:` the lookahead becomes
conditional (see the counterexample). -/
theorem claim2_required_consumes_next (s : Scanner) (c : Char) (idx : Nat)
    (next : Str)
    (hc : s.arg[s.optpos]? = some c)
    (hidx : indexByte? s.optstring c = some idx)
    (hHA : hasArgAt s.optstring idx = true)
    (hOA : optionalAt s.optstring idx = false)
    (hlast : s.arg.length = s.optpos + 1)
    (hlt : s.optind + 1 < s.argv.length)
    (hnext : s.argv[s.optind + 1]? = some next) :
    s.Option = some (Except.ok ⟨c, optArg next⟩,
      { s with optind := s.optind + 2, optpos := 1 }) ∧
    (next ≠ [] → optArg next = some next) := by
  constructor
  · unfold Scanner.Option
    have hngt : ¬s.arg.length > s.optpos + 1 := by omega
    simp [hc, hidx, hHA, hOA, hngt, hlt, hnext]
  · exact optArg_of_ne_nil next

/-- Counterexample to claim C2 as stated: in the grammar `:a:` the character
`a` is followed by exactly one `:` (its policy parenthetical in the claim),
yet with argv `["p", "-a", "-b"]` decode does NOT consume `-b`: it returns
`a` with an absent argument and advances the element index by 1, because the
leading `:` of the optstring makes the lookahead conditional. -/
theorem claim2_counterexample :
    indexByte? (str ":a:") 'a' = some 1 ∧
    hasArgAt (str ":a:") 1 = true ∧
    (str ":a:")[3]? = none ∧
    Scanner.Option
        { argv := [str "p", str "-a", str "-b"], optstring := str ":a:",
          optind := 1, arg := str "-a", optpos := 1, err := none,
          progname := str "p" } =
      some (Except.ok ⟨'a', none⟩,
        { argv := [str "p", str "-a", str "-b"], optstring := str ":a:",
          optind := 2, arg := str "-a", optpos := 1, err := none,
          progname := str "p" }) ∧
    (⟨'a', none⟩ : ParsedOption).Arg ≠ optArg (str "-b") ∧
    (2 : Nat) ≠ 1 + 2 := by
  decide

/-- Witness for claim C2: grammar `a:b`, argv `["p", "-a", "-b"]`; decode of
`a` consumes the next element `-b` verbatim and advances the index by 2. -/
theorem claim2_witness :
    Scanner.Option
        { argv := [str "p", str "-a", str "-b"], optstring := str "a:b",
          optind := 1, arg := str "-a", optpos := 1, err := none,
          progname := str "p" } =
      some (Except.ok ⟨'a', optArg (str "-b")⟩,
        { argv := [str "p", str "-a", str "-b"], optstring := str "a:b",
          optind := 3, arg := str "-a", optpos := 1, err := none,
          progname := str "p" }) ∧
    optArg (str "-b") = some (str "-b") := by
  obtain ⟨h1, h2⟩ := claim2_required_consumes_next
    ⟨[str "p", str "-a", str "-b"], str "a:b", 1, str "-a", 1, none, str "p"⟩
    'a' 0 (str "-b") (by decide) (by decide) (by decide) (by decide)
    (by decide) (by decide) (by decide)
  exact ⟨h1, h2 (by decide)⟩

/-- Claim C3: for an arg-bearing option whose argument is optional (`::`
after the character's first occurrence, or a leading `:` in the optstring),
with the option character last in its element and a further element present,
decode consumes that next element as the argument only if it is non-empty
and does not begin with `-`; otherwise it leaves the next element untouched,
advances the element index by only 1, and returns the option with an absent
argument. -/
theorem claim3_optional_lookahead (s : Scanner) (c : Char) (idx : Nat)
    (next : Str)
    (hc : s.arg[s.optpos]? = some c)
    (hidx : indexByte? s.optstring c = some idx)
    (hHA : hasArgAt s.optstring idx = true)
    (hOA : optionalAt s.optstring idx = true)
    (hlast : s.arg.length = s.optpos + 1)
    (hlt : s.optind + 1 < s.argv.length)
    (hnext : s.argv[s.optind + 1]? = some next) :
    (next ≠ [] ∧ next[0]? ≠ some '-' →
      s.Option = some (Except.ok ⟨c, some next⟩,
        { s with optind := s.optind + 2, optpos := 1 })) ∧
    ((next = [] ∨ next[0]? = some '-') →
      s.Option = some (Except.ok ⟨c, none⟩,
        { s with optind := s.optind + 1, optpos := 1 }) ∧
      ({ s with optind := s.optind + 1, optpos := 1 } : Scanner).argv =
        s.argv) := by
  have hngt : ¬s.arg.length > s.optpos + 1 := by omega
  constructor
  · intro hcond
    unfold Scanner.Option
    simp [hc, hidx, hHA, hOA, hngt, hlt, hnext, hcond.1, hcond.2,
      optArg_of_ne_nil next hcond.1]
  · intro hcond
    have hnc : ¬(next ≠ [] ∧ next[0]? ≠ some '-') := by
      rcases hcond with h | h
      · exact fun hk => hk.1 h
      · exact fun hk => hk.2 h
    refine ⟨?_, rfl⟩
    unfold Scanner.Option
    simp [hc, hidx, hHA, hOA, hngt, hlt, hnext, hnc]

/-- Witness for claim C3: grammar `:ab:c:`, argv `["p", "-a", "-b", "-c"]`;
decode of `b` does not consume `-c` (it begins with `-`), advances by 1 and
returns `b` with an absent argument. -/
theorem claim3_witness :
    Scanner.Option
        { argv := [str "p", str "-a", str "-b", str "-c"],
          optstring := str ":ab:c:", optind := 2, arg := str "-b",
          optpos := 1, err := none, progname := str "p" } =
      some (Except.ok ⟨'b', none⟩,
        { argv := [str "p", str "-a", str "-b", str "-c"],
          optstring := str ":ab:c:", optind := 3, arg := str "-b",
          optpos := 1, err := none, progname := str "p" }) := by
  obtain ⟨-, h2⟩ := claim3_optional_lookahead
    ⟨[str "p", str "-a", str "-b", str "-c"], str ":ab:c:", 2, str "-b", 1,
      none, str "p"⟩
    'b' 2 (str "-c") (by decide) (by decide) (by decide) (by decide)
    (by decide) (by decide) (by decide)
  exact (h2 (Or.inr (by decide))).1

/-- Claim C4: decode returns MissingArgument(c) if and only if c (the
character at the cursor) is found in the optstring with an arg-bearing
policy (one `:` after its first occurrence), no characters follow c in its
element, no further element exists, the policy is not Optional (`::`) and
the grammar's leading `:` flag is unset; in that case the error is recorded
as sticky status.  In every other no-further-element case where c is in the
grammar, the option is returned with an absent argument and the element
index advances by 1. -/
theorem claim4_missing_argument_iff (s : Scanner) (c : Char)
    (hc : s.arg[s.optpos]? = some c) :
    ((∃ s', s.Option = some
        (Except.error (GetoptError.missingArgument c), s')) ↔
      (∃ idx, indexByte? s.optstring c = some idx ∧
        hasArgAt s.optstring idx = true ∧
        optionalAt s.optstring idx = false ∧
        s.arg.length ≤ s.optpos + 1 ∧ s.argv.length ≤ s.optind + 1)) ∧
    (∀ e s', s.Option = some
        (Except.error (GetoptError.missingArgument e), s') →
      e = c ∧ s'.err = some (GetoptError.missingArgument c)) ∧
    (∀ idx, indexByte? s.optstring c = some idx →
      s.arg.length ≤ s.optpos + 1 → s.argv.length ≤ s.optind + 1 →
      ¬(hasArgAt s.optstring idx = true ∧
          optionalAt s.optstring idx = false) →
      s.Option = some (Except.ok ⟨c, none⟩,
        { s with optind := s.optind + 1, optpos := 1 })) := by
  obtain ⟨hposlt, -⟩ := List.getElem?_eq_some.mp hc
  refine ⟨⟨?_, ?_⟩, ?_, ?_⟩
  · rintro ⟨s', h⟩
    obtain ⟨c', hc', hbr⟩ := option_cases s _ s' h
    rw [hc] at hc'
    have hcc : c' = c := (Option.some.inj hc').symm
    subst hcc
    rcases hbr with ⟨-, hres, -⟩ | ⟨idx, hidx, hbr⟩
    · exact absurd hres (by simp)
    · rcases hbr with ⟨-, -, hres, -⟩ | ⟨-, -, -, next, -, hbr2⟩ |
        ⟨-, -, -, -, hres, -⟩ | ⟨hHA, hgt, hlt, hOA, hres, -⟩ |
        ⟨-, -, hres, -⟩ | ⟨-, -, hres, -⟩
      · exact absurd hres (by simp)
      · rcases hbr2 with ⟨-, hres, -⟩ | ⟨-, -, hres, -⟩ | ⟨-, -, hres, -⟩ <;>
          exact absurd hres (by simp)
      · exact absurd hres (by simp)
      · exact ⟨idx, hidx, hHA, hOA, by omega, by omega⟩
      · exact absurd hres (by simp)
      · exact absurd hres (by simp)
  · rintro ⟨idx, hidx, hHA, hOA, hlen, hnoel⟩
    refine ⟨{ s with err := some (GetoptError.missingArgument c) }, ?_⟩
    unfold Scanner.Option
    have h1 : ¬s.arg.length > s.optpos + 1 := by omega
    have h2 : ¬s.optind + 1 < s.argv.length := by omega
    simp [hc, hidx, hHA, hOA, h1, h2]
  · intro e s' h
    obtain ⟨c', hc', hbr⟩ := option_cases s _ s' h
    rw [hc] at hc'
    have hcc : c' = c := (Option.some.inj hc').symm
    rcases hbr with ⟨-, hres, -⟩ | ⟨idx, hidx, hbr⟩
    · exact absurd hres (by simp)
    · rcases hbr with ⟨-, -, hres, -⟩ | ⟨-, -, -, next, -, hbr2⟩ |
        ⟨-, -, -, -, hres, -⟩ | ⟨hHA, hgt, hlt, hOA, hres, rfl⟩ |
        ⟨-, -, hres, -⟩ | ⟨-, -, hres, -⟩
      · exact absurd hres (by simp)
      · rcases hbr2 with ⟨-, hres, -⟩ | ⟨-, -, hres, -⟩ | ⟨-, -, hres, -⟩ <;>
          exact absurd hres (by simp)
      · exact absurd hres (by simp)
      · have he : e = c' := by
          simpa using hres
        exact ⟨he.trans hcc, by rw [hcc]⟩
      · exact absurd hres (by simp)
      · exact absurd hres (by simp)
  · intro idx hidx hlen hnoel hnreq
    have hlast : s.arg.length = s.optpos + 1 := by omega
    have h2 : ¬s.optind + 1 < s.argv.length := by omega
    by_cases hHA : hasArgAt s.optstring idx = true
    · have hOA : optionalAt s.optstring idx = true := by
        rcases hb : optionalAt s.optstring idx with _ | _
        · exact absurd ⟨hHA, hb⟩ hnreq
        · rfl
      unfold Scanner.Option
      have h1 : ¬s.arg.length > s.optpos + 1 := by omega
      simp [hc, hidx, hHA, hOA, h1, h2]
    · have hHA' : hasArgAt s.optstring idx = false := by
        rcases hb : hasArgAt s.optstring idx with _ | _
        · rfl
        · exact absurd hb hHA
      unfold Scanner.Option
      simp [hc, hidx, hHA', hlast]

/-- Witness for claim C4: grammar `ab:`, argv `["p", "-a", "-b"]`; decoding
`b` as the last element with no further element yields MissingArgument. -/
theorem claim4_witness :
    ∃ s', Scanner.Option
        ⟨[str "p", str "-a", str "-b"], str "ab:", 2, str "-b", 1, none,
          str "p"⟩ =
      some (Except.error (GetoptError.missingArgument 'b'), s') := by
  have h := claim4_missing_argument_iff
    ⟨[str "p", str "-a", str "-b"], str "ab:", 2, str "-b", 1, none,
      str "p"⟩ 'b' (by decide)
  exact h.1.mpr ⟨1, by decide, by decide, by decide, by decide, by decide⟩

/-- Claim C5 (amended): for every optstring, every NON-EMPTY argument
vector, and every call sequence respecting the step protocol (Option called
only immediately after a Scan call that returned true), no operation of the
core panics: construction, Scan and Option always return a value (never the
panic marker `none`), and Args and ProgramName are total functions of the
state.  The original claim fails for the empty vector (construction indexes
argv[0]) and for Option calls made without a preceding successful Scan (see
the counterexample). -/
theorem claim5_no_panic_under_protocol (os : Str) (argv : List Str)
    (hne : argv ≠ []) :
    (∃ r, NewArgv os argv = some r) ∧
    (∀ s, ProtoReach os argv s →
      (∃ r, s.Scan = some r) ∧
      (∀ s1, s.Scan = some (true, s1) → ∃ r, s1.Option = some r)) := by
  constructor
  · unfold NewArgv
    split
    · exact ⟨_, rfl⟩
    · split
      · exact absurd rfl hne
      · exact ⟨_, rfl⟩
  · intro s hreach
    obtain ⟨hInv, -, -⟩ := reach_facts os argv s hreach
    refine ⟨scan_defined s hInv, ?_⟩
    intro s1 hscan
    have hInv1 := inv_scan s true s1 hInv hscan
    obtain ⟨-, -, -, -, -, -, goe⟩ := scan_true_facts s s1 hscan
    exact option_defined s1 hInv1 goe

/-- Counterexample to claim C5 as stated: construction with the empty
argument vector panics (indexing argv[0] for the program name), and calling
Option directly after construction — a sequence of construction and Option
calls — panics on indexing the empty current element at offset 1.  Both
panics are the `none` results below. -/
theorem claim5_counterexample :
    NewArgv [] [] = none ∧
    NewArgv [] [str "p"] =
      some (Except.ok
        { argv := [str "p"], optstring := [], optind := 1, arg := [],
          optpos := 1, err := none, progname := str "p" }) ∧
    Scanner.Option
        { argv := [str "p"], optstring := [], optind := 1, arg := [],
          optpos := 1, err := none, progname := str "p" } = none := by
  decide

/-- Witness for claim C5: the no-panic guarantees at a concrete grammar and
argument vector. -/
theorem claim5_witness :
    [str "p", str "-a"] ≠ ([] : List Str) ∧
    ((∃ r, NewArgv (str "a") [str "p", str "-a"] = some r) ∧
      (∀ s, ProtoReach (str "a") [str "p", str "-a"] s →
        (∃ r, s.Scan = some r) ∧
        (∀ s1, s.Scan = some (true, s1) → ∃ r, s1.Option = some r))) :=
  ⟨by decide,
    claim5_no_panic_under_protocol (str "a") [str "p", str "-a"] (by decide)⟩

/-- Claim C6: a decode step never returns an explicitly empty argument — in
every successful decode the returned record's Arg is never `some ""`, and in
the concrete case where a Required-policy option consumes a next element
that is literally the empty string, the element is consumed (index advances
by 2) but the option comes back with Arg nil, HasArg false. -/
theorem claim6_empty_argument_normalized (s : Scanner) :
    (∀ o s', s.Option = some (Except.ok o, s') →
      o.Arg ≠ some [] ∧ (o.Arg = none → o.HasArg = false)) ∧
    (∀ c idx, s.arg[s.optpos]? = some c →
      indexByte? s.optstring c = some idx →
      hasArgAt s.optstring idx = true → optionalAt s.optstring idx = false →
      s.arg.length = s.optpos + 1 → s.optind + 1 < s.argv.length →
      s.argv[s.optind + 1]? = some [] →
      s.Option = some (Except.ok ⟨c, none⟩,
        { s with optind := s.optind + 2, optpos := 1 }) ∧
      (⟨c, none⟩ : ParsedOption).HasArg = false) := by
  constructor
  · intro o s' h
    have hemp : o.Arg = none → o.HasArg = false := by
      intro ha
      simp [ParsedOption.HasArg, ha]
    obtain ⟨c, hc, hbr⟩ := option_cases s _ s' h
    rcases hbr with ⟨-, hres, -⟩ | ⟨idx, hidx, hbr⟩
    · exact absurd hres (by simp)
    · rcases hbr with ⟨-, -, hres, -⟩ | ⟨-, -, -, next, -, hbr2⟩ |
        ⟨-, -, -, -, hres, -⟩ | ⟨-, -, -, -, hres, -⟩ |
        ⟨-, -, hres, -⟩ | ⟨-, -, hres, -⟩
      · have ho : o = ⟨c, optArg (s.arg.drop (s.optpos + 1))⟩ := by
          injection hres
        refine ⟨?_, hemp⟩
        rw [ho]
        exact optArg_ne_some_nil _
      · rcases hbr2 with ⟨-, hres, -⟩ | ⟨-, -, hres, -⟩ | ⟨-, -, hres, -⟩
        · have ho : o = ⟨c, optArg next⟩ := by
            injection hres
          refine ⟨?_, hemp⟩
          rw [ho]
          exact optArg_ne_some_nil _
        · have ho : o = ⟨c, optArg next⟩ := by
            injection hres
          refine ⟨?_, hemp⟩
          rw [ho]
          exact optArg_ne_some_nil _
        · have ho : o = ⟨c, none⟩ := by
            injection hres
          refine ⟨?_, hemp⟩
          rw [ho]
          simp
      · have ho : o = ⟨c, none⟩ := by
          injection hres
        refine ⟨?_, hemp⟩
        rw [ho]
        simp
      · exact absurd hres (by simp)
      · have ho : o = ⟨c, none⟩ := by
          injection hres
        refine ⟨?_, hemp⟩
        rw [ho]
        simp
      · have ho : o = ⟨c, none⟩ := by
          injection hres
        refine ⟨?_, hemp⟩
        rw [ho]
        simp
  · intro c idx hc hidx hHA hOA hlast hlt hnext
    refine ⟨?_, by simp [ParsedOption.HasArg]⟩
    unfold Scanner.Option
    have hngt : ¬s.arg.length > s.optpos + 1 := by omega
    simp [hc, hidx, hHA, hOA, hngt, hlt, hnext, optArg]

/-- Witness for claim C6: grammar `a:`, argv `["p", "-a", ""]`; the empty
next element is consumed as `a`'s required argument yet the returned option
carries no argument. -/
theorem claim6_witness :
    Scanner.Option
        { argv := [str "p", str "-a", []], optstring := str "a:",
          optind := 1, arg := str "-a", optpos := 1, err := none,
          progname := str "p" } =
      some (Except.ok ⟨'a', none⟩,
        { argv := [str "p", str "-a", []], optstring := str "a:",
          optind := 3, arg := str "-a", optpos := 1, err := none,
          progname := str "p" }) ∧
    (⟨'a', none⟩ : ParsedOption).HasArg = false := by
  exact (claim6_empty_argument_normalized
    ⟨[str "p", str "-a", []], str "a:", 1, str "-a", 1, none, str "p"⟩).2
    'a' 0 (by decide) (by decide) (by decide) (by decide) (by decide)
    (by decide) (by decide)

/-- Claim C7: for every arg-bearing option character (Required or Optional
policy alike), if characters remain in the current element after the option
character, those trailing characters are returned verbatim as the argument
(including any leading `-`, with no condition on their content), the element
index advances by 1 and the character offset resets to 1. -/
theorem claim7_greedy_inline_capture (s : Scanner) (c : Char) (idx : Nat)
    (hc : s.arg[s.optpos]? = some c)
    (hidx : indexByte? s.optstring c = some idx)
    (hHA : hasArgAt s.optstring idx = true)
    (hrem : s.optpos + 1 < s.arg.length) :
    s.Option = some (Except.ok ⟨c, some (s.arg.drop (s.optpos + 1))⟩,
      { s with optind := s.optind + 1, optpos := 1 }) ∧
    s.arg.drop (s.optpos + 1) ≠ [] := by
  have hne : s.arg.drop (s.optpos + 1) ≠ [] := by
    intro hnil
    have := List.drop_eq_nil_iff.mp hnil
    omega
  constructor
  · unfold Scanner.Option
    simp [hc, hidx, hHA, hrem, optArg_of_ne_nil _ hne]
  · exact hne

/-- Witness for claim C7: grammar `a:b`, argv `["p", "-ab"]`; decode of `a`
captures the in-element remainder `b` as its argument (not option `b`). -/
theorem claim7_witness :
    Scanner.Option
        { argv := [str "p", str "-ab"], optstring := str "a:b", optind := 1,
          arg := str "-ab", optpos := 1, err := none, progname := str "p" } =
      some (Except.ok ⟨'a', some (str "b")⟩,
        { argv := [str "p", str "-ab"], optstring := str "a:b", optind := 2,
          arg := str "-ab", optpos := 1, err := none,
          progname := str "p" }) := by
  have h := (claim7_greedy_inline_capture
    ⟨[str "p", str "-ab"], str "a:b", 1, str "-ab", 1, none, str "p"⟩
    'a' 0 (by decide) (by decide) (by decide) (by decide)).1
  exact h

/-- Claim C8: the optstring lookup is an order-preserving first-match scan —
`indexByte?` returns the first occurrence of the character — and under the
duplicate grammar `aa:` the option `a` resolves to its first occurrence,
whose policy is None (no argument): decode returns `a` with an absent
argument and never consumes an extra element. -/
theorem claim8_first_occurrence_wins :
    (∀ (os : Str) (c : Char) (idx : Nat), indexByte? os c = some idx →
      os[idx]? = some c ∧ ∀ j, j < idx → os[j]? ≠ some c) ∧
    (∀ s : Scanner, s.optstring = str "aa:" →
      s.arg[s.optpos]? = some 'a' →
      hasArgAt (str "aa:") 0 = false ∧
      ∃ s', s.Option = some (Except.ok ⟨'a', none⟩, s') ∧
        s'.optind ≤ s.optind + 1 ∧ s'.argv = s.argv) := by
  constructor
  · intro os c idx h
    induction os generalizing idx with
    | nil => exact absurd h (by simp [indexByte?])
    | cons d rest ih =>
      unfold indexByte? at h
      split at h
      · rename_i hdc
        injection h with h
        subst hdc
        rw [← h]
        exact ⟨by simp, fun j hj => absurd hj (by omega)⟩
      · rename_i hdc
        rcases hrest : indexByte? rest c with _ | idx0
        · rw [hrest] at h
          simp at h
        · rw [hrest] at h
          simp at h
          subst h
          obtain ⟨h1, h2⟩ := ih idx0 hrest
          refine ⟨by simpa using h1, ?_⟩
          intro j hj
          cases j with
          | zero =>
            simpa using hdc
          | succ j0 =>
            simpa using h2 j0 (by omega)
  · intro s hos hc
    have hidx : indexByte? s.optstring 'a' = some 0 := by
      rw [hos]
      decide
    have hHA : hasArgAt s.optstring 0 = false := by
      rw [hos]
      decide
    refine ⟨by decide, ?_⟩
    by_cases hlen : s.arg.length = s.optpos + 1
    · refine ⟨{ s with optind := s.optind + 1, optpos := 1 }, ?_,
        Nat.le.refl, rfl⟩
      unfold Scanner.Option
      simp [hc, hidx, hHA, hlen]
    · refine ⟨{ s with optpos := s.optpos + 1 }, ?_,
        Nat.le_succ s.optind, rfl⟩
      unfold Scanner.Option
      simp [hc, hidx, hHA, hlen]

/-- Witness for claim C8: first-occurrence lookup on `aa:` and the decode of
`a` under that grammar at a concrete state. -/
theorem claim8_witness :
    ((str "aa:")[0]? = some 'a' ∧
      ∀ j, j < 0 → (str "aa:")[j]? ≠ some 'a') ∧
    (hasArgAt (str "aa:") 0 = false ∧
      ∃ s', Scanner.Option
          ⟨[str "p", str "-a5"], str "aa:", 1, str "-a5", 1, none,
            str "p"⟩ =
        some (Except.ok ⟨'a', none⟩, s') ∧
        s'.optind ≤ 1 + 1 ∧ s'.argv = [str "p", str "-a5"]) :=
  ⟨claim8_first_occurrence_wins.1 (str "aa:") 'a' 0 (by decide),
    claim8_first_occurrence_wins.2
      ⟨[str "p", str "-a5"], str "aa:", 1, str "-a5", 1, none, str "p"⟩
      rfl (by decide)⟩

/-- Claim C9 (amended): in every Scanner state reachable from construction
by call sequences respecting the step protocol (Option only immediately
after a Scan that returned true), the character offset is at least 1, the
element index lies in `[1, len argv]`, and every Scan or Option step from
such a state that changes the element index leaves the character offset at
1.  The original claim's "any sequence of Scan and Option calls" fails: out
of protocol, repeated Option calls push the element index past the end of
the vector (see the counterexample). -/
theorem claim9_cursor_invariant (os : Str) (argv : List Str) (s : Scanner)
    (h : ProtoReach os argv s) :
    (1 ≤ s.optind ∧ s.optind ≤ s.argv.length ∧ 1 ≤ s.optpos) ∧
    (∀ b s', s.Scan = some (b, s') → s'.optind ≠ s.optind →
      s'.optpos = 1) ∧
    (∀ s1, s.Scan = some (true, s1) →
      ∀ r s', s1.Option = some (r, s') → s'.optind ≠ s1.optind →
        s'.optpos = 1) := by
  obtain ⟨hInv, -, -⟩ := reach_facts os argv s h
  obtain ⟨h1, h2, h3, h4⟩ := hInv
  refine ⟨⟨h1, h2, h3⟩, ?_, ?_⟩
  · intro b s' hs hne
    rcases scan_cases s b s' hs with ⟨-, rfl, -⟩ | ⟨-, a, ha, hbr⟩
    · exact absurd rfl hne
    · rcases hbr with ⟨-, hdd, rfl⟩ | ⟨-, -, -, rfl⟩ | ⟨-, -, -, rfl⟩
      · show s.optpos = 1
        by_contra hnp
        have hgt : 1 < s.optpos := by omega
        obtain ⟨-, harg, hplen⟩ := h4 hgt
        rw [ha] at harg
        have haeq : a = s.arg := Option.some.inj harg
        rw [← haeq, hdd] at hplen
        simp at hplen
        omega
      · exact absurd rfl hne
      · exact absurd rfl hne
  · intro s1 hs r s' ho hne
    obtain ⟨c, hc, hbr⟩ := option_cases s1 r s' ho
    rcases hbr with ⟨-, -, rfl⟩ | ⟨idx, -, hbr⟩
    · exact absurd rfl hne
    · rcases hbr with ⟨-, -, -, rfl⟩ | ⟨-, -, -, next, -, hbr2⟩ |
        ⟨-, -, -, -, -, rfl⟩ | ⟨-, -, -, -, -, rfl⟩ |
        ⟨-, -, -, rfl⟩ | ⟨-, -, -, rfl⟩
      · exact rfl
      · rcases hbr2 with ⟨-, -, rfl⟩ | ⟨-, -, -, rfl⟩ | ⟨-, -, -, rfl⟩ <;>
          exact rfl
      · exact rfl
      · exact absurd rfl hne
      · exact rfl
      · exact absurd rfl hne

/-- Counterexample to claim C9 as stated: grammar `ab`, argv
`["p", "-ab"]` (length 2); the call sequence Scan, Option, Option, Option,
Option — a sequence of Scan and Option calls — drives the element index to
3, violating `optind ≤ length of the argument vector`. -/
theorem claim9_counterexample :
    (((((((NewArgv (str "ab") [str "p", str "-ab"]).bind okScanner).bind
                scanState).bind
              optionState).bind
            optionState).bind
          optionState).bind
        optionState).map
      Scanner.optind = some 3 ∧
    ([str "p", str "-ab"] : List Str).length = 2 ∧ ¬(3 : Nat) ≤ 2 := by
  decide

/-- Witness for claim C9: the cursor invariant at the concrete initial state
for grammar `a` and argv `["p", "-a"]`, which is protocol-reachable by
construction. -/
theorem claim9_witness :
    (1 ≤ (⟨[str "p", str "-a"], str "a", 1, [], 1, none,
        str "p"⟩ : Scanner).optind ∧
      (⟨[str "p", str "-a"], str "a", 1, [], 1, none,
        str "p"⟩ : Scanner).optind ≤
        (⟨[str "p", str "-a"], str "a", 1, [], 1, none,
          str "p"⟩ : Scanner).argv.length ∧
      1 ≤ (⟨[str "p", str "-a"], str "a", 1, [], 1, none,
        str "p"⟩ : Scanner).optpos) ∧
    (∀ b s', Scanner.Scan
        ⟨[str "p", str "-a"], str "a", 1, [], 1, none, str "p"⟩ =
          some (b, s') →
      s'.optind ≠ (⟨[str "p", str "-a"], str "a", 1, [], 1, none,
        str "p"⟩ : Scanner).optind → s'.optpos = 1) ∧
    (∀ s1, Scanner.Scan
        ⟨[str "p", str "-a"], str "a", 1, [], 1, none, str "p"⟩ =
          some (true, s1) →
      ∀ r s', s1.Option = some (r, s') → s'.optind ≠ s1.optind →
        s'.optpos = 1) :=
  claim9_cursor_invariant (str "a") [str "p", str "-a"] _
    (ProtoReach.init _ (by decide))

/-- Claim C10: construction with the empty optstring succeeds (no
construction error), and every decode against the empty grammar at the
start of an option element fails with InvalidOption carrying the element's
first option character (the character at offset 1). -/
theorem claim10_empty_optstring_admits_nothing :
    (∀ (a0 : Str) (rest : List Str), ∃ sc,
      NewArgv [] (a0 :: rest) = some (Except.ok sc) ∧
        sc.optstring = [] ∧ sc.optind = 1 ∧ sc.err = none) ∧
    (∀ (s : Scanner) (c : Char), s.optstring = [] → s.optpos = 1 →
      s.arg[1]? = some c →
      s.Option = some (Except.error (GetoptError.invalidOption c),
        { s with err := some (GetoptError.invalidOption c) })) := by
  constructor
  · intro a0 rest
    exact ⟨_, rfl, rfl, rfl, rfl⟩
  · intro s c hos hpos hc
    unfold Scanner.Option
    rw [hpos, hos]
    simp [hc, indexByte?]

/-- Witness for claim C10: the empty grammar accepts construction and then
rejects the concrete option element `-a` with InvalidOption('a'). -/
theorem claim10_witness :
    (∃ sc, NewArgv [] [str "p"] = some (Except.ok sc) ∧
      sc.optstring = [] ∧ sc.optind = 1 ∧ sc.err = none) ∧
    Scanner.Option
        ⟨[str "p", str "-a"], [], 1, str "-a", 1, none, str "p"⟩ =
      some (Except.error (GetoptError.invalidOption 'a'),
        ⟨[str "p", str "-a"], [], 1, str "-a", 1,
          some (GetoptError.invalidOption 'a'), str "p"⟩) :=
  ⟨claim10_empty_optstring_admits_nothing.1 (str "p") [],
    claim10_empty_optstring_admits_nothing.2
      ⟨[str "p", str "-a"], [], 1, str "-a", 1, none, str "p"⟩ 'a'
      rfl rfl (by decide)⟩
